/-
  Verification of the reactive-addons layer of `zustand-store-addons`
  (src/index.ts): dependency extraction (`getDeps`), computed
  recomputation and the write pipeline (`setMiddleware`), watcher
  dispatch, middleware composition (`middlewareFunctions` via lodash
  `flow`), initial computed registration (`configComputed`), and the
  accessor facade (`stateHook`), modelled as a shallow embedding.

  JavaScript objects are modelled as association lists with unique keys
  (`StateMap`); `undefined` is modelled as `Option.none`; exceptions
  raised by watcher reactions are modelled by reactions returning
  `Option E` (`some e` models a throw of `e`).
-/
import Mathlib

namespace ZustandAddons

/-- A JavaScript object holding state: an association list from property
names to values; lookup returns the first binding.  All maps built by the
model keep unique keys, mirroring JS objects. -/
abbrev StateMap (V : Type) := List (String × V)

variable {V E : Type}

/-- Property access `obj[k]`; `none` models `undefined`. -/
def getProp : StateMap V → String → Option V
  | [], _ => none
  | (k0, v0) :: rest, k => if k0 = k then some v0 else getProp rest k

/-- `Object.keys(obj)`. -/
def jsKeys (s : StateMap V) : List String := s.map (fun p => p.1)

/-- `Object.keys(obj).includes(k)`. -/
def hasKey (s : StateMap V) (k : String) : Bool := (jsKeys s).contains k

/-- Object spread `{...a, ...b}`: keys of `a` in their order with values
overridden by `b` where present, followed by the keys of `b` absent
from `a`. -/
def jsMerge (a b : StateMap V) : StateMap V :=
  a.map (fun p => match getProp b p.1 with | some w => (p.1, w) | none => p)
    ++ b.filter (fun p => !(hasKey a p.1))

/-- Property assignment `obj[k] = v` (equivalently `{...obj, [k]: v}` for
unique-key objects): replaces the binding in place if the key is present,
otherwise appends it. -/
def jsSet : StateMap V → String → V → StateMap V
  | [], k, v => [(k, v)]
  | (k0, v0) :: rest, k, v =>
    if k0 = k then (k0, v) :: rest else (k0, v0) :: jsSet rest k v

@[simp] theorem getProp_nil (k : String) : getProp ([] : StateMap V) k = none := rfl

theorem getProp_cons (k0 : String) (v0 : V) (rest : StateMap V) (k : String) :
    getProp ((k0, v0) :: rest) k = if k0 = k then some v0 else getProp rest k := rfl

theorem hasKey_eq_isSome (s : StateMap V) (k : String) :
    hasKey s k = (getProp s k).isSome := by
  induction s with
  | nil => rfl
  | cons p rest ih =>
    obtain ⟨k0, v0⟩ := p
    simp only [hasKey, jsKeys, List.map_cons, List.contains_cons, getProp] at ih ⊢
    by_cases h : k0 = k
    · subst h
      simp
    · have hne : (k == k0) = false := beq_eq_false_iff_ne.mpr (fun hh => h hh.symm)
      rw [hne, if_neg h, Bool.false_or]
      exact ih

theorem getProp_append (a b : StateMap V) (k : String) :
    getProp (a ++ b) k = ((getProp a k).rec (getProp b k) (fun v => some v)) := by
  induction a with
  | nil => simp [getProp]
  | cons p rest ih =>
    obtain ⟨k0, v0⟩ := p
    by_cases h : k0 = k <;> simp [getProp, h, ih]

theorem getProp_map_override (a b : StateMap V) (k : String) :
    getProp (a.map (fun p => match getProp b p.1 with | some w => (p.1, w) | none => p)) k
      = match getProp a k, getProp b k with
        | none, _ => none
        | some _, some w => some w
        | some v, none => some v := by
  induction a with
  | nil => simp [getProp]
  | cons p rest ih =>
    obtain ⟨k0, v0⟩ := p
    by_cases h : k0 = k
    · subst h
      cases hb : getProp b k0 <;> simp [getProp, hb]
    · cases hb : getProp b k0 <;> simp [getProp, h, hb, ih]

theorem getProp_filter_notKey (a b : StateMap V) (k : String) :
    getProp (b.filter (fun p => !(hasKey a p.1))) k
      = if hasKey a k then none else getProp b k := by
  induction b with
  | nil => simp [getProp]
  | cons p rest ih =>
    obtain ⟨k0, v0⟩ := p
    by_cases h : k0 = k
    · subst h
      cases hk : hasKey a k0 <;> simp [List.filter_cons, hk, getProp, ih]
    · cases hk : hasKey a k0 <;> simp [List.filter_cons, hk, getProp, h, ih]

/-- Lookup in a JS spread `{...a, ...b}`: `b` wins where present. -/
theorem getProp_jsMerge (a b : StateMap V) (k : String) :
    getProp (jsMerge a b) k
      = match getProp b k with | some w => some w | none => getProp a k := by
  rw [jsMerge, getProp_append, getProp_map_override, getProp_filter_notKey,
    hasKey_eq_isSome]
  cases ha : getProp a k <;> cases hb : getProp b k <;> simp

theorem hasKey_jsMerge (a b : StateMap V) (k : String) :
    hasKey (jsMerge a b) k = (hasKey a k || hasKey b k) := by
  rw [hasKey_eq_isSome, hasKey_eq_isSome, hasKey_eq_isSome, getProp_jsMerge]
  cases ha : getProp a k <;> cases hb : getProp b k <;> simp

@[simp] theorem getProp_jsSet_self (s : StateMap V) (k : String) (v : V) :
    getProp (jsSet s k v) k = some v := by
  induction s with
  | nil => simp [jsSet, getProp]
  | cons p rest ih =>
    obtain ⟨k0, v0⟩ := p
    by_cases h : k0 = k <;> simp [jsSet, h, getProp, ih]

theorem getProp_jsSet_ne (s : StateMap V) (k k2 : String) (v : V) (h : k ≠ k2) :
    getProp (jsSet s k v) k2 = getProp s k2 := by
  induction s with
  | nil => simp [jsSet, getProp, h]
  | cons p rest ih =>
    obtain ⟨k0, v0⟩ := p
    by_cases h0 : k0 = k
    · subst h0
      simp [jsSet, getProp, h]
    · simp [jsSet, h0, getProp, ih]

theorem hasKey_jsSet (s : StateMap V) (k k2 : String) (v : V) :
    hasKey (jsSet s k v) k2 = (hasKey s k2 || k = k2) := by
  by_cases h : k = k2
  · subst h
    simp [hasKey_eq_isSome]
  · rw [hasKey_eq_isSome, hasKey_eq_isSome, getProp_jsSet_ne s k k2 v h]
    simp [h]

/-! ## Dependency extraction (`getDeps`, src/index.ts lines 28-36)

`getDeps` runs the two regexes `(?:this\.)(\w+)` and
`(?:this\[')(\w+)(?:'\])` over `fn.toString()` with `matchAll`,
concatenates the match lists, passes them through `new Set` (which
compares match *objects*, all pairwise distinct, so it removes nothing)
and projects the capture group.  A regex match is modelled as the pair
(start index, captured name); `matchAll` semantics are modelled by a
left-to-right scan that resumes after the end of each match and advances
one character after a failed attempt. -/

/-- The single-quote character, written via its code point. -/
def sqChar : Char := Char.ofNat 39

/-- JS `\w`: ASCII letters, digits and underscore. -/
def isWordChar (c : Char) : Bool := c.isAlphanum || c == '_'

/-- The literal part of `(?:this\.)(\w+)`. -/
def dotPat : List Char := ['t', 'h', 'i', 's', '.']

/-- The opening literal part of `(?:this\[')(\w+)(?:'\])`. -/
def brPat : List Char := ['t', 'h', 'i', 's', '[', sqChar]

/-- Does `(?:this\.)(\w+)` match at the head of `l`? -/
def matchDotAt (l : List Char) : Bool :=
  (l.take 5 == dotPat) &&
    (match l.drop 5 with
     | c :: _ => isWordChar c
     | [] => false)

/-- Does `(?:this\[')(\w+)(?:'\])` match at the head of `l`?  The greedy
`\w+` cannot backtrack into a successful match because the quote is not a
word character, so the regex matches here exactly when the maximal word
run after `this['` is nonempty and is followed by `']`. -/
def matchBrAt (l : List Char) : Bool :=
  (l.take 6 == brPat) &&
    (let w := (l.drop 6).takeWhile isWordChar
     decide (0 < w.length) && ((l.drop (6 + w.length)).take 2 == [sqChar, ']']))

/-- `matchAll` scan for `(?:this\.)(\w+)`: fuel-indexed so that it is
structurally recursive; one unit of fuel is spent per character position
visited, so `fuel = l.length` is always sufficient. -/
def scanDotF : Nat → List Char → Nat → List (Nat × String)
  | 0, _, _ => []
  | _ + 1, [], _ => []
  | fuel + 1, c :: rest, i =>
    if matchDotAt (c :: rest) then
      let w := ((c :: rest).drop 5).takeWhile isWordChar
      (i, String.mk w) :: scanDotF fuel ((c :: rest).drop (5 + w.length)) (i + 5 + w.length)
    else
      scanDotF fuel rest (i + 1)

/-- `matchAll` scan for `(?:this\[')(\w+)(?:'\])`. -/
def scanBrF : Nat → List Char → Nat → List (Nat × String)
  | 0, _, _ => []
  | _ + 1, [], _ => []
  | fuel + 1, c :: rest, i =>
    if matchBrAt (c :: rest) then
      let w := ((c :: rest).drop 6).takeWhile isWordChar
      (i, String.mk w) ::
        scanBrF fuel ((c :: rest).drop (6 + w.length + 2)) (i + 6 + w.length + 2)
    else
      scanBrF fuel rest (i + 1)

/-- All matches of `(?:this\.)(\w+)` in `src`, as (index, capture) pairs. -/
def scanDot (src : String) : List (Nat × String) :=
  scanDotF src.toList.length src.toList 0

/-- All matches of `(?:this\[')(\w+)(?:'\])` in `src`, as (index, capture)
pairs. -/
def scanBr (src : String) : List (Nat × String) :=
  scanBrF src.toList.length src.toList 0

/-- `Array.from(new Set(xs))`: JS `Set` insertion-order deduplication.
For the match lists fed to it by `getDeps` the elements are pairwise
distinct objects (modelled: pairwise distinct index/capture pairs), so it
keeps everything. -/
def jsSetDedup [DecidableEq α] : List α → List α → List α
  | _, [] => []
  | seen, a :: rest =>
    if a ∈ seen then jsSetDedup seen rest else a :: jsSetDedup (a :: seen) rest

/-- `getDeps` (src/index.ts lines 28-36): concatenate the matches of the
two regexes over the function's source text, deduplicate the match
objects with `new Set`, and project the capture group. -/
def getDeps (src : String) : List String :=
  (jsSetDedup [] (scanDot src ++ scanBr src)).map (fun m => m.2)

theorem jsSetDedup_of_nodup [DecidableEq α] :
    ∀ (l seen : List α), l.Nodup → (∀ a ∈ l, a ∉ seen) → jsSetDedup seen l = l
  | [], _, _, _ => rfl
  | a :: rest, seen, h, hseen => by
    have ha : a ∉ seen := hseen a (List.mem_cons_self a rest)
    have hr : rest.Nodup := (List.nodup_cons.mp h).2
    have hna : a ∉ rest := (List.nodup_cons.mp h).1
    have hs : ∀ x ∈ rest, x ∉ a :: seen := fun x hx hmem => by
      rcases List.mem_cons.mp hmem with h1 | h2
      · exact hna (h1 ▸ hx)
      · exact hseen x (List.mem_cons_of_mem a hx) h2
    rw [jsSetDedup, if_neg ha, jsSetDedup_of_nodup rest (a :: seen) hr hs]

/-! ## Computed registry and the write pipeline (`setMiddleware`)

`setMiddleware` (src/index.ts lines 85-130) resolves the partial, logs,
recomputes every registered computed entry whose dependency list
intersects the keys of the explicit changes (in registration order,
against `{...currentState, ...changes, ...updatedComputed}`), commits
`{...changes, ...updatedComputed}` through the underlying store's set
(zustand merges the partial into the state), then dispatches watchers.
A watcher reaction returning `some e` models a thrown exception: the
dispatch loop stops and the trailing log statements do not run. -/

/-- `intersection` (src/index.ts lines 38-46): the elements of `bArray`
that occur in `aArray`, in `bArray` order. -/
def intersection (aArray : List String) (bArray : List String) : List String :=
  bArray.filter (fun e => aArray.contains e)

/-- A registered computed entry: `_computedPropDependencies[name] = deps`
and `_computed[name] = derive` (src/index.ts lines 142-143); the registry
list order is registration (`Object.entries`) order. -/
structure CEntry (V : Type) where
  name : String
  deps : List String
  derive : StateMap V → V

/-- One iteration of the recompute loop (src/index.ts lines 100-109). -/
def recomputeStep (currentState changes : StateMap V)
    (updated : StateMap V) (e : CEntry V) : StateMap V :=
  if 0 < (intersection (jsKeys changes) e.deps).length then
    jsSet updated e.name (e.derive (jsMerge (jsMerge currentState changes) updated))
  else updated

/-- The full recompute loop over the registry, producing
`updatedComputed`. -/
def recomputePass (reg : List (CEntry V)) (currentState changes : StateMap V) :
    StateMap V :=
  reg.foldl (recomputeStep currentState changes) []

/-- `enum LogLevel` (src/index.ts lines 7-11). -/
inductive LogLevel where
  | None
  | Diff
  | All
deriving DecidableEq, Repr

/-- `_settings` (src/index.ts lines 67-70). -/
structure Settings where
  name : String
  logLevel : LogLevel

/-- One console statement emitted during a write cycle. -/
inductive LogEvent (V : Type) where
  | group (label : String)
  | prevState (s : StateMap V)
  | applying (c : StateMap V)
  | updatingComputed (u : StateMap V)
  | triggeringWatcher (k : String)
  | newState (s : StateMap V)
  | groupEnd
deriving DecidableEq

/-- A watcher reaction (`_watchers[propName]`): receives
`(newState[propName], currentState[propName])`; returning `some e`
models raising exception `e`, `none` models normal completion. -/
abbrev Reaction (V E : Type) := Option V → Option V → Option E

/-- The write-call options object (`setSettings`), a duck-typed JS
object; the code reads only `excludeInLogs` from it. -/
abbrev WriteOpts := List (String × Bool)

/-- Lookup in the options object; `none` models `undefined` (also the
case where the whole options argument is `undefined`, modelled as `[]`). -/
def optLookup (opts : WriteOpts) (k : String) : Option Bool :=
  (opts.find? (fun p => p.1 == k)).map (fun p => p.2)

/-- The watcher dispatch loop (src/index.ts lines 118-126), iterating the
watcher registry in insertion order.  Returns the performed invocations
(key, new value, old value), the first raised exception if any (the loop
stops there), and the `Triggering watcher` log lines emitted. -/
def dispatchGo (logOps : Bool) (ns cur : StateMap V) :
    List (String × Reaction V E) →
    List (String × Option V × Option V) × Option E × List (LogEvent V)
  | [] => ([], none, [])
  | (k, f) :: rest =>
    bif (jsKeys ns).contains k then
      match f (getProp ns k) (getProp cur k) with
      | some e =>
        ([(k, getProp ns k, getProp cur k)], some e,
          bif logOps then [LogEvent.triggeringWatcher k] else [])
      | none =>
        let r := dispatchGo logOps ns cur rest
        ((k, getProp ns k, getProp cur k) :: r.1, r.2.1,
          (bif logOps then [LogEvent.triggeringWatcher k] else []) ++ r.2.2)
    else dispatchGo logOps ns cur rest

/-- The argument accepted by a write call: a partial state object or a
function of the current state (src/index.ts line 91). -/
abbrev WriteArg (V : Type) := StateMap V ⊕ (StateMap V → StateMap V)

/-- `changes` resolution (src/index.ts line 91). -/
def resolveArg (arg : WriteArg V) (currentState : StateMap V) : StateMap V :=
  match arg with
  | Sum.inl m => m
  | Sum.inr f => f currentState

/-- Everything observable about one `setMiddleware` call: the state the
underlying store holds after the commit in line 116 (zustand's set merges
the partial into the previous state), the watcher invocations performed,
the exception that escaped the call (if a reaction raised), and the
console trace. -/
structure WriteResult (V E : Type) where
  committed : StateMap V
  invocations : List (String × Option V × Option V)
  exc : Option E
  logs : List (LogEvent V)

/-- `logOperations` (src/index.ts line 88): the `?? true` there is dead
because `!x` is always a boolean, so the guard is exactly "the write
options do not carry a truthy `excludeInLogs`, and the configured level
is not `None`". -/
def logOps (settings : Settings) (setSettings : WriteOpts) : Bool :=
  !(optLookup setSettings "excludeInLogs" == some true)
    && !(settings.logLevel == LogLevel.None)

/-- `setMiddleware` (src/index.ts lines 85-130). -/
def setMiddleware (reg : List (CEntry V)) (watchers : List (String × Reaction V E))
    (settings : Settings) (setSettings : WriteOpts)
    (currentState : StateMap V) (arg : WriteArg V) : WriteResult V E :=
  let logOperations := logOps settings setSettings
  let changes := resolveArg arg currentState
  let updatedComputed := recomputePass reg currentState changes
  let newState := jsMerge changes updatedComputed
  let d := dispatchGo logOperations newState currentState watchers
  { committed := jsMerge currentState (jsMerge changes updatedComputed)
    invocations := d.1
    exc := d.2.1
    logs :=
      (bif logOperations then [LogEvent.group (settings.name ++ " state changed")] else [])
        ++ (bif logOperations && (settings.logLevel == LogLevel.All)
            then [LogEvent.prevState currentState] else [])
        ++ (bif logOperations then [LogEvent.applying changes] else [])
        ++ (bif decide (0 < (jsKeys updatedComputed).length) && logOperations
            then [LogEvent.updatingComputed updatedComputed] else [])
        ++ d.2.2
        ++ (match d.2.1 with
            | some _ => []
            | none =>
              (bif logOperations && (settings.logLevel == LogLevel.All)
               then [LogEvent.newState (jsMerge currentState newState)] else [])
                ++ (bif logOperations then [LogEvent.groupEnd] else [])) }

/-! ## Initial computed registration (`configComputed`)

`configComputed` (src/index.ts lines 137-153) walks the caller-supplied
computed mapping in order: it extracts dependencies from each derivation
function's source, registers the entry only when the dependency list is
nonempty, and evaluates every entry once against
`{..._api.getState(), ...computedToAdd}` (the prior state merged with the
values produced earlier in the same registration pass). -/

/-- A caller-supplied computed entry before registration: its name, its
derivation function's source text (`fn.toString()`), and its derivation
function. -/
structure ComputedSpec (V : Type) where
  name : String
  src : String
  derive : StateMap V → V

/-- One iteration of the `configComputed` loop. -/
def configStep (apiState : StateMap V)
    (acc : List (CEntry V) × StateMap V) (sp : ComputedSpec V) :
    List (CEntry V) × StateMap V :=
  let deps := getDeps sp.src
  ( if 0 < deps.length then acc.1 ++ [⟨sp.name, deps, sp.derive⟩] else acc.1,
    jsSet acc.2 sp.name (sp.derive (jsMerge apiState acc.2)) )

/-- `configComputed`: returns the resulting registry (in registration
order) and `computedToAdd`, the staged initial values. -/
def configComputed (specs : List (ComputedSpec V)) (apiState : StateMap V) :
    List (CEntry V) × StateMap V :=
  specs.foldl (configStep apiState) ([], [])

/-! ## Write-path plumbing: middleware composition and the three write paths

`createStore` (src/index.ts lines 161-173) builds
`create(attachMiddleWare(middlewareFunctions(addons.middleware, base)))`.
`middlewareFunctions` is `flow(middleware)(store)` (lodash `flow`, i.e.
left-to-right application on the *creator* chain), `attachMiddleWare`
hands the outermost creator a set function that routes into
`setMiddleware` over the store's native set, and the base creator passes
the set it receives to `stateInitializer`.  A zustand middleware stage
has shape `config => (set, get, api) => config(wrappedSet, get, api)`,
so the set captured by the initializer is wrapped first by the first
listed stage.  `setState` (lines 81-83) — which is also the facade's
`setState` after `Object.assign(stateHook, _api)` (line 187) and the
`set` handed to watcher reactions (line 121) — routes straight into
`setMiddleware` over `_originalSetState`, without the stage wrappers.

Creators are modelled by the set function they pass to the code below
them; a stage is modelled as an observing wrapper that records a trace
event before forwarding, and the core (`setMiddleware` + native commit)
records `WEvent.core` and performs the real state transition. -/

/-- Trace events on the write path: a middleware stage observing the
write, or the write reaching `setMiddleware` and the native commit. -/
inductive WEvent where
  | stage (i : Nat)
  | core
deriving DecidableEq, Repr

/-- A write function as seen on the pipeline: takes the trace so far and
the store state, plus the partial changes, and returns the extended trace
and the committed state. -/
abbrev TraceWrite (V : Type) := List WEvent × StateMap V → StateMap V → List WEvent × StateMap V

/-- A creator, reduced to what matters for write routing: the function
from the set it is given to the set the code below it captures. -/
abbrev CreatorT (V : Type) := TraceWrite V → TraceWrite V

/-- The core write path: entering `setMiddleware` with the native set
(records `WEvent.core`, commits through the full pipeline).  `E` is the
watcher-exception type of the modelled store. -/
def coreWrite (reg : List (CEntry V)) (watchers : List (String × Reaction V E))
    (settings : Settings) (setSettings : WriteOpts) : TraceWrite V :=
  fun p chg =>
    (p.1 ++ [WEvent.core],
     (setMiddleware reg watchers settings setSettings p.2 (Sum.inl chg)).committed)

/-- An observing set wrapper installed by middleware stage `i`. -/
def obsWrap (i : Nat) (set : TraceWrite V) : TraceWrite V :=
  fun p chg => set (p.1 ++ [WEvent.stage i], p.2) chg

/-- A zustand-style middleware stage
`config => (set, ...) => config(wrappedSet, ...)` that observes writes
with tag `i`. -/
def mkStage (i : Nat) : CreatorT V → CreatorT V :=
  fun config set => config (obsWrap i set)

/-- lodash `flow(funcs)`: left-to-right function composition,
`flow([f, g])(x) = g(f(x))`. -/
def lodashFlow (fs : List (α → α)) : α → α :=
  fun x => fs.foldl (fun acc f => f acc) x

/-- `middlewareFunctions` (src/index.ts lines 132-135):
`middleware ? flow(middleware)(store) : store`. -/
def middlewareFunctions (mw : Option (List (CreatorT V → CreatorT V)))
    (store : CreatorT V) : CreatorT V :=
  match mw with
  | some l => lodashFlow l store
  | none => store

/-- The base creator (src/index.ts lines 165-171): hands the set it
receives to `stateInitializer`, so as a set transformer it is the
identity. -/
def baseCreator : CreatorT V := id

/-- `attachMiddleWare` (src/index.ts lines 72-79): invokes the composed
creator with a set that routes into `setMiddleware` over the native set. -/
def attachMiddleWare (reg : List (CEntry V)) (watchers : List (String × Reaction V E))
    (settings : Settings) (setSettings : WriteOpts) (config : CreatorT V) :
    TraceWrite V :=
  config (coreWrite reg watchers settings setSettings)

/-- The set captured by the state initializer:
`attachMiddleWare(middlewareFunctions(addons.middleware, base))`. -/
def initializerSet (reg : List (CEntry V)) (watchers : List (String × Reaction V E))
    (settings : Settings) (setSettings : WriteOpts)
    (mw : Option (List (CreatorT V → CreatorT V))) : TraceWrite V :=
  attachMiddleWare reg watchers settings setSettings
    (middlewareFunctions mw baseCreator)

/-- The facade's `setState` (src/index.ts lines 81-83, copied onto the
facade at line 187): `setMiddleware(args, _originalSetState)` — the
stage wrappers never see it. -/
def facadeSetState (reg : List (CEntry V)) (watchers : List (String × Reaction V E))
    (settings : Settings) (setSettings : WriteOpts) : TraceWrite V :=
  coreWrite reg watchers settings setSettings

/-- The `set` handed to a watcher reaction (src/index.ts line 121):
`_api.setState`, which is the same replaced `setState`. -/
def watcherSet (reg : List (CEntry V)) (watchers : List (String × Reaction V E))
    (settings : Settings) (setSettings : WriteOpts) : TraceWrite V :=
  facadeSetState reg watchers settings setSettings

/-! ## The accessor facade's string selectors (`stateHook`)

`stateHook` (src/index.ts lines 175-184): a comma-containing string
selector is split on commas, each part trimmed, each name resolved
independently, and the resulting array is read through zustand's
`shallow` equality; a plain string selector reads that one property. -/

/-- The result of a string-selector read: a single property or a batch. -/
inductive ReadResult (V : Type) where
  | single (v : Option V)
  | batch (vs : List (Option V))
deriving DecidableEq

/-- JS `str.split(",")` over the characters of the string: segments
between commas, in order, empty segments kept. -/
def splitCommas : List Char → List (List Char)
  | [] => [[]]
  | c :: rest =>
    if c = ',' then [] :: splitCommas rest
    else
      match splitCommas rest with
      | [] => [[c]]
      | seg :: segs => (c :: seg) :: segs

/-- JS `str.trim()`: strip whitespace from both ends. -/
def jsTrim (l : List Char) : List Char :=
  ((l.dropWhile Char.isWhitespace).reverse.dropWhile Char.isWhitespace).reverse

/-- The trimmed name parts of a comma-separated selector:
`selector.split(",").map(part => part.trim())`. -/
def selParts (sel : String) : List String :=
  (splitCommas sel.toList).map (fun part => String.mk (jsTrim part))

/-- The selector built by `stateHook` for a string argument
(`selector.indexOf(",") !== -1` modelled as a character-list search). -/
def stateHookString (sel : String) (state : StateMap V) : ReadResult V :=
  if sel.toList.contains ',' then
    ReadResult.batch ((selParts sel).map (fun p => getProp state p))
  else ReadResult.single (getProp state sel)

/-- zustand's `shallow` on two arrays: same length and element-wise
`Object.is`. -/
def shallowList [DecidableEq V] (a b : List (Option V)) : Bool :=
  (a.length == b.length) && (a.zip b).all (fun p => p.1 == p.2)

/-! ## Helper lemmas about the recompute pass -/

theorem hasKey_recomputeStep_iff (cs ch u : StateMap V) (e : CEntry V) (k : String) :
    hasKey (recomputeStep cs ch u e) k = true ↔
      (hasKey u k = true ∨ (e.name = k ∧ 0 < (intersection (jsKeys ch) e.deps).length)) := by
  unfold recomputeStep
  by_cases h : 0 < (intersection (jsKeys ch) e.deps).length
  · rw [if_pos h, hasKey_jsSet]
    simp [h]
  · rw [if_neg h]
    simp [h]

theorem hasKey_foldl_recompute_iff (l : List (CEntry V)) (cs ch u : StateMap V) (k : String) :
    hasKey (l.foldl (recomputeStep cs ch) u) k = true ↔
      (hasKey u k = true ∨
        ∃ e ∈ l, e.name = k ∧ 0 < (intersection (jsKeys ch) e.deps).length) := by
  induction l generalizing u with
  | nil => simp
  | cons e rest ih =>
    rw [List.foldl_cons, ih, hasKey_recomputeStep_iff]
    simp only [List.mem_cons]
    constructor
    · rintro ((h | h) | ⟨x, hx, hp⟩)
      · exact Or.inl h
      · exact Or.inr ⟨e, Or.inl rfl, h⟩
      · exact Or.inr ⟨x, Or.inr hx, hp⟩
    · rintro (h | ⟨x, (rfl | hx), hp⟩)
      · exact Or.inl (Or.inl h)
      · exact Or.inl (Or.inr hp)
      · exact Or.inr ⟨x, hx, hp⟩

theorem getProp_foldl_recompute_ne (l : List (CEntry V)) (cs ch : StateMap V)
    (u : StateMap V) (k : String) (h : ∀ e ∈ l, e.name ≠ k) :
    getProp (l.foldl (recomputeStep cs ch) u) k = getProp u k := by
  induction l generalizing u with
  | nil => rfl
  | cons e rest ih =>
    rw [List.foldl_cons, ih _ (fun x hx => h x (List.mem_cons_of_mem e hx))]
    unfold recomputeStep
    by_cases ht : 0 < (intersection (jsKeys ch) e.deps).length
    · rw [if_pos ht, getProp_jsSet_ne _ _ _ _ (h e (List.mem_cons_self e rest))]
    · rw [if_neg ht]

theorem getProp_recomputePass_split (pre : List (CEntry V)) (e : CEntry V)
    (post : List (CEntry V)) (cs ch : StateMap V)
    (hnd : ((pre ++ e :: post).map CEntry.name).Nodup)
    (htrig : 0 < (intersection (jsKeys ch) e.deps).length) :
    getProp (recomputePass (pre ++ e :: post) cs ch) e.name
      = some (e.derive (jsMerge (jsMerge cs ch) (recomputePass pre cs ch))) := by
  unfold recomputePass
  rw [List.foldl_append, List.foldl_cons]
  have h1 : ((e :: post).map CEntry.name).Nodup := by
    rw [List.map_append] at hnd
    exact hnd.of_append_right
  rw [List.map_cons] at h1
  have h2 : e.name ∉ post.map CEntry.name := (List.nodup_cons.mp h1).1
  have hpost : ∀ x ∈ post, x.name ≠ e.name := by
    intro x hx heq
    exact h2 (heq ▸ List.mem_map_of_mem CEntry.name hx)
  rw [getProp_foldl_recompute_ne post cs ch _ _ hpost]
  unfold recomputeStep
  rw [if_pos htrig, getProp_jsSet_self]

/-! ## Helper lemmas about watcher dispatch -/

/-- The invocations a dispatch pass performs when no reaction raises: the
watchers whose key is in the committed change set, in registry order. -/
def triggeredInvs (ws : List (String × Reaction V E)) (ns cur : StateMap V) :
    List (String × Option V × Option V) :=
  (ws.filter (fun p => (jsKeys ns).contains p.1)).map
    (fun p => (p.1, getProp ns p.1, getProp cur p.1))

theorem dispatchGo_cons (logOps : Bool) (ns cur : StateMap V) (k : String)
    (f : Reaction V E) (rest : List (String × Reaction V E)) :
    dispatchGo logOps ns cur ((k, f) :: rest)
      = bif (jsKeys ns).contains k then
          match f (getProp ns k) (getProp cur k) with
          | some e =>
            ([(k, getProp ns k, getProp cur k)], some e,
              bif logOps then [LogEvent.triggeringWatcher k] else [])
          | none =>
            ((k, getProp ns k, getProp cur k) :: (dispatchGo logOps ns cur rest).1,
             (dispatchGo logOps ns cur rest).2.1,
             (bif logOps then [LogEvent.triggeringWatcher k] else [])
               ++ (dispatchGo logOps ns cur rest).2.2)
        else dispatchGo logOps ns cur rest := rfl

theorem triggeredInvs_cons (k : String) (f : Reaction V E)
    (rest : List (String × Reaction V E)) (ns cur : StateMap V) :
    triggeredInvs ((k, f) :: rest) ns cur
      = bif (jsKeys ns).contains k
        then (k, getProp ns k, getProp cur k) :: triggeredInvs rest ns cur
        else triggeredInvs rest ns cur := by
  by_cases hc : k ∈ jsKeys ns
  · have hb : (jsKeys ns).contains k = true := by simpa using hc
    simp [triggeredInvs, List.filter_cons, hc, hb]
  · have hb : (jsKeys ns).contains k = false := by simpa using hc
    simp [triggeredInvs, List.filter_cons, hc, hb]

theorem dispatchGo_pure (logOps : Bool) (ns cur : StateMap V)
    (ws : List (String × Reaction V E))
    (hp : ∀ p ∈ ws, ∀ v o, p.2 v o = none) :
    (dispatchGo logOps ns cur ws).1 = triggeredInvs ws ns cur
      ∧ (dispatchGo logOps ns cur ws).2.1 = none := by
  induction ws with
  | nil => exact ⟨rfl, rfl⟩
  | cons p rest ih =>
    obtain ⟨k, f⟩ := p
    have hf : ∀ v o, f v o = none := hp (k, f) (List.mem_cons_self _ _)
    have ihr := ih (fun q hq => hp q (List.mem_cons_of_mem _ hq))
    rw [dispatchGo_cons, triggeredInvs_cons, hf]
    cases hc : (jsKeys ns).contains k
    · simpa using ihr
    · simp only [cond_true]
      exact ⟨by simp [ihr.1], ihr.2⟩

theorem dispatchGo_append_pure (logOps : Bool) (ns cur : StateMap V)
    (l1 l2 : List (String × Reaction V E))
    (hp : ∀ p ∈ l1, ∀ v o, p.2 v o = none) :
    (dispatchGo logOps ns cur (l1 ++ l2)).1
        = triggeredInvs l1 ns cur ++ (dispatchGo logOps ns cur l2).1
      ∧ (dispatchGo logOps ns cur (l1 ++ l2)).2.1 = (dispatchGo logOps ns cur l2).2.1 := by
  induction l1 with
  | nil => exact ⟨rfl, rfl⟩
  | cons p rest ih =>
    obtain ⟨k, f⟩ := p
    have hf : ∀ v o, f v o = none := hp (k, f) (List.mem_cons_self _ _)
    have ihr := ih (fun q hq => hp q (List.mem_cons_of_mem _ hq))
    rw [List.cons_append, dispatchGo_cons, triggeredInvs_cons, hf]
    cases hc : (jsKeys ns).contains k
    · simpa using ihr
    · simp only [cond_true]
      exact ⟨by simp [ihr.1], ihr.2⟩

theorem triggeredInvs_filter_not_mem (ws : List (String × Reaction V E))
    (ns cur : StateMap V) (K : String) (h : K ∉ ws.map Prod.fst) :
    (triggeredInvs ws ns cur).filter (fun i => i.1 == K) = [] := by
  induction ws with
  | nil => rfl
  | cons p rest ih =>
    obtain ⟨k, f⟩ := p
    have hk : (k == K) = false := by
      refine beq_eq_false_iff_ne.mpr (fun heq => ?_)
      exact h (heq ▸ List.mem_map_of_mem Prod.fst (List.mem_cons_self _ _))
    have hr : K ∉ rest.map Prod.fst := fun hm => h (List.mem_cons_of_mem _ hm)
    rw [triggeredInvs_cons]
    cases hc : (jsKeys ns).contains k
    · simpa using ih hr
    · simp only [cond_true, List.filter_cons, hk]
      simpa using ih hr

theorem triggeredInvs_filter_mem (ws : List (String × Reaction V E))
    (ns cur : StateMap V) (K : String)
    (hnd : (ws.map Prod.fst).Nodup) (hmem : K ∈ ws.map Prod.fst) :
    (triggeredInvs ws ns cur).filter (fun i => i.1 == K)
      = (bif (jsKeys ns).contains K
         then [(K, getProp ns K, getProp cur K)] else []) := by
  induction ws with
  | nil => cases hmem
  | cons p rest ih =>
    obtain ⟨k, f⟩ := p
    rw [List.map_cons] at hmem hnd
    by_cases hk : k = K
    · subst hk
      have hnot : k ∉ rest.map Prod.fst := (List.nodup_cons.mp hnd).1
      rw [triggeredInvs_cons]
      cases hc : (jsKeys ns).contains k
      · simpa using triggeredInvs_filter_not_mem rest ns cur k hnot
      · simp only [cond_true, List.filter_cons, beq_self_eq_true]
        simpa using triggeredInvs_filter_not_mem rest ns cur k hnot
    · have hmr : K ∈ rest.map Prod.fst := by
        rcases List.mem_cons.mp hmem with h1 | h1
        · exact absurd h1.symm hk
        · exact h1
      have hkK : (k == K) = false := beq_eq_false_iff_ne.mpr hk
      have ihr := ih (List.nodup_cons.mp hnd).2 hmr
      rw [triggeredInvs_cons]
      cases hc : (jsKeys ns).contains k
      · simpa using ihr
      · simp only [cond_true, List.filter_cons, hkK]
        simpa using ihr

theorem dispatchGo_logs_false (ns cur : StateMap V)
    (ws : List (String × Reaction V E)) :
    (dispatchGo false ns cur ws).2.2 = [] := by
  induction ws with
  | nil => rfl
  | cons p rest ih =>
    obtain ⟨k, f⟩ := p
    rw [dispatchGo_cons]
    cases hc : (jsKeys ns).contains k
    · simpa using ih
    · simp only [cond_true, cond_false]
      cases hf : f (getProp ns k) (getProp cur k) <;> simp [ih]

/-! ## Helper lemmas about `configComputed` -/

theorem mem_configComputed_reg (specs : List (ComputedSpec V)) (apiState : StateMap V)
    (acc : List (CEntry V) × StateMap V) (e : CEntry V)
    (h : e ∈ (specs.foldl (configStep apiState) acc).1) :
    e ∈ acc.1 ∨ ∃ sp ∈ specs, e.name = sp.name ∧ e.deps = getDeps sp.src := by
  induction specs generalizing acc with
  | nil => exact Or.inl h
  | cons sp rest ih =>
    rw [List.foldl_cons] at h
    rcases ih (configStep apiState acc sp) h with h1 | ⟨sp2, hsp2, hn, hd⟩
    · simp only [configStep] at h1
      by_cases ht : 0 < (getDeps sp.src).length
      · rw [if_pos ht] at h1
        rcases List.mem_append.mp h1 with h2 | h2
        · exact Or.inl h2
        · rcases List.mem_singleton.mp h2 with rfl
          exact Or.inr ⟨sp, List.mem_cons_self _ _, rfl, rfl⟩
      · rw [if_neg ht] at h1
        exact Or.inl h1
    · exact Or.inr ⟨sp2, List.mem_cons_of_mem _ hsp2, hn, hd⟩

theorem getProp_configComputed_toAdd_ne (specs : List (ComputedSpec V))
    (apiState : StateMap V) (acc : List (CEntry V) × StateMap V) (k : String)
    (h : ∀ sp ∈ specs, sp.name ≠ k) :
    getProp ((specs.foldl (configStep apiState) acc).2) k = getProp acc.2 k := by
  induction specs generalizing acc with
  | nil => rfl
  | cons sp rest ih =>
    rw [List.foldl_cons, ih _ (fun x hx => h x (List.mem_cons_of_mem sp hx))]
    unfold configStep
    exact getProp_jsSet_ne _ _ _ _ (h sp (List.mem_cons_self sp rest))

theorem getProp_configComputed_split (spre : List (ComputedSpec V)) (sp : ComputedSpec V)
    (spost : List (ComputedSpec V)) (apiState : StateMap V)
    (hnd : ((spre ++ sp :: spost).map ComputedSpec.name).Nodup) :
    getProp ((configComputed (spre ++ sp :: spost) apiState).2) sp.name
      = some (sp.derive (jsMerge apiState ((configComputed spre apiState).2))) := by
  unfold configComputed
  rw [List.foldl_append, List.foldl_cons]
  have h1 : ((sp :: spost).map ComputedSpec.name).Nodup := by
    rw [List.map_append] at hnd
    exact hnd.of_append_right
  rw [List.map_cons] at h1
  have h2 : sp.name ∉ spost.map ComputedSpec.name := (List.nodup_cons.mp h1).1
  have hpost : ∀ x ∈ spost, x.name ≠ sp.name := by
    intro x hx heq
    exact h2 (heq ▸ List.mem_map_of_mem ComputedSpec.name hx)
  rw [getProp_configComputed_toAdd_ne spost apiState _ _ hpost]
  unfold configStep
  exact getProp_jsSet_self _ _ _

/-! ## Helper lemmas about middleware composition -/

theorem lodashFlow_mkStage (tags : List Nat) (config : CreatorT V) :
    lodashFlow (tags.map mkStage) config = fun set => config (tags.foldr obsWrap set) := by
  induction tags generalizing config with
  | nil => rfl
  | cons t ts ih =>
    have h1 : lodashFlow ((t :: ts).map mkStage) config
        = lodashFlow (ts.map mkStage) (mkStage t config) := rfl
    rw [h1, ih (mkStage t config)]
    rfl

theorem foldr_obsWrap_apply (tags : List Nat) (set : TraceWrite V)
    (tr : List WEvent) (s : StateMap V) (chg : StateMap V) :
    (tags.foldr obsWrap set) (tr, s) chg = set (tr ++ tags.map WEvent.stage, s) chg := by
  induction tags generalizing tr with
  | nil => simp
  | cons t ts ih =>
    rw [List.foldr_cons]
    show (ts.foldr obsWrap set) (tr ++ [WEvent.stage t], s) chg = _
    rw [ih]
    simp

/-! ## Projection lemmas for `setMiddleware` -/

theorem setMiddleware_committed (reg : List (CEntry V))
    (ws : List (String × Reaction V E)) (st : Settings) (opts : WriteOpts)
    (cur : StateMap V) (arg : WriteArg V) :
    (setMiddleware reg ws st opts cur arg).committed
      = jsMerge cur (jsMerge (resolveArg arg cur)
          (recomputePass reg cur (resolveArg arg cur))) := rfl

theorem setMiddleware_invocations (reg : List (CEntry V))
    (ws : List (String × Reaction V E)) (st : Settings) (opts : WriteOpts)
    (cur : StateMap V) (arg : WriteArg V) :
    (setMiddleware reg ws st opts cur arg).invocations
      = (dispatchGo (logOps st opts)
          (jsMerge (resolveArg arg cur) (recomputePass reg cur (resolveArg arg cur)))
          cur ws).1 := rfl

theorem setMiddleware_exc (reg : List (CEntry V))
    (ws : List (String × Reaction V E)) (st : Settings) (opts : WriteOpts)
    (cur : StateMap V) (arg : WriteArg V) :
    (setMiddleware reg ws st opts cur arg).exc
      = (dispatchGo (logOps st opts)
          (jsMerge (resolveArg arg cur) (recomputePass reg cur (resolveArg arg cur)))
          cur ws).2.1 := rfl

theorem setMiddleware_logs_of_logOps_false (reg : List (CEntry V))
    (ws : List (String × Reaction V E)) (st : Settings) (opts : WriteOpts)
    (cur : StateMap V) (arg : WriteArg V) (h : logOps st opts = false) :
    (setMiddleware reg ws st opts cur arg).logs = [] := by
  have hlogs := dispatchGo_logs_false
    (jsMerge (resolveArg arg cur) (recomputePass reg cur (resolveArg arg cur))) cur ws (E := E)
  simp only [setMiddleware, h, cond_false, Bool.false_and, Bool.and_false,
    List.nil_append, hlogs]
  cases (dispatchGo false
      (jsMerge (resolveArg arg cur) (recomputePass reg cur (resolveArg arg cur)))
      cur ws).2.1 <;> rfl

theorem setMiddleware_logs_ne_nil_of_logOps_true (reg : List (CEntry V))
    (ws : List (String × Reaction V E)) (st : Settings) (opts : WriteOpts)
    (cur : StateMap V) (arg : WriteArg V) (h : logOps st opts = true) :
    (setMiddleware reg ws st opts cur arg).logs ≠ [] := by
  simp only [setMiddleware, h, cond_true]
  intro hcontra
  simp at hcontra

/-! ## Concrete scenarios used by the claim theorems -/

/-- The single quote as a string, for building JS sources containing
bracket member access. -/
def sq : String := String.mk [sqChar]

/-- A derivation source reading `this['a']` once and `this.b` twice. -/
def srcDup : String :=
  "function()\x7b return this[" ++ sq ++ "a" ++ sq ++ "] + this.b + this.b \x7d"

/-- Computed entry `a`, depending on the plain property `x`
(dependencies as extracted by `getDeps` from its source). -/
def aE : CEntry Int :=
  ⟨"a", getDeps "function()\x7b return this.x + 1 \x7d",
    fun s => (getProp s "x").getD 0 + 1⟩

/-- Computed entry `b`, depending only on the computed property `a`. -/
def bE : CEntry Int :=
  ⟨"b", getDeps "function()\x7b return this.a * 10 \x7d",
    fun s => (getProp s "a").getD 0 * 10⟩

/-- The state after registering `a` and `b` over `{x: 1}`: the staged
initial values are `a = 2`, `b = 20`. -/
def curAB : StateMap Int := [("x", 1), ("a", 2), ("b", 20)]

/-- The write `{x: 5}` against that store, with both computed entries
registered and no watchers. -/
def resAB : WriteResult Int Unit :=
  setMiddleware [aE, bE] [] ⟨"MyStore", LogLevel.None⟩ [] curAB (Sum.inl [("x", 5)])

/-! ## Claim C10 -/

/-- C10: dependency extraction over-approximates because it is purely
textual: a derivation function whose source mentions `this.x` only
inside a comment — and never reads state property `x` — still gets `x`
extracted as a dependency. -/
theorem getDeps_textual_overapproximation :
    getDeps "function()\x7b /* this.x */ return 1 \x7d" = ["x"] := by decide

/-! ## Claim C5 — counterexample -/

/-- C5 is false on the code: for a source reading `this['a']` before
`this.b` twice, `getDeps` returns `["b", "b", "a"]` — the repeated name
is kept (the `new Set` deduplicates match *objects*, which are pairwise
distinct, not names), and the `this['...']` matches come after all the
`this.` matches instead of in order of first occurrence. -/
theorem getDeps_not_deduplicated_cex :
    getDeps srcDup = ["b", "b", "a"] ∧ ¬ (getDeps srcDup).Nodup := by
  exact ⟨by decide, by decide⟩

/-! ## Claim C8 -/

/-- C8 is false on the code: the write option consulted by the logging
guard is named `excludeInLogs`, not `excludeFromLog`; a call passing
`{ excludeFromLog: true }` at configured level `Diff` still produces
diagnostic output. -/
theorem excludeFromLog_does_not_suppress_cex :
    (setMiddleware ([] : List (CEntry Int)) ([] : List (String × Reaction Int Unit))
        ⟨"MyStore", LogLevel.Diff⟩ [("excludeFromLog", true)]
        [("x", 1)] (Sum.inl [("x", 2)])).logs ≠ [] := by decide

/-- C8 (amended): the per-call logging opt-out key is `excludeInLogs`
(not `excludeFromLog`).  A write whose options carry `excludeInLogs:
true` produces no diagnostic logging regardless of the configured level;
any other write produces logging exactly when the configured level is
not `None`. -/
theorem logging_iff_not_excluded_and_level (reg : List (CEntry V))
    (ws : List (String × Reaction V E)) (st : Settings) (opts : WriteOpts)
    (cur : StateMap V) (arg : WriteArg V) :
    (optLookup opts "excludeInLogs" = some true →
        (setMiddleware reg ws st opts cur arg).logs = [])
      ∧ (optLookup opts "excludeInLogs" ≠ some true →
        ((setMiddleware reg ws st opts cur arg).logs ≠ []
          ↔ st.logLevel ≠ LogLevel.None)) := by
  constructor
  · intro hx
    apply setMiddleware_logs_of_logOps_false
    simp [logOps, hx]
  · intro hx
    by_cases hl : st.logLevel = LogLevel.None
    · have h0 : logOps st opts = false := by simp [logOps, hl]
      rw [setMiddleware_logs_of_logOps_false reg ws st opts cur arg h0]
      simp [hl]
    · have hb1 : (optLookup opts "excludeInLogs" == some true) = false :=
        beq_eq_false_iff_ne.mpr hx
      have hb2 : (st.logLevel == LogLevel.None) = false :=
        beq_eq_false_iff_ne.mpr hl
      have h1 : logOps st opts = true := by
        rw [logOps, hb1, hb2]
        rfl
      exact ⟨fun _ => hl,
        fun _ => setMiddleware_logs_ne_nil_of_logOps_true reg ws st opts cur arg h1⟩

/-- Witness for the amended C8: a concrete call carrying
`excludeInLogs: true` at level `All` emits no logs. -/
theorem logging_iff_not_excluded_and_level_wit :
    (setMiddleware ([] : List (CEntry Int)) ([] : List (String × Reaction Int Unit))
        ⟨"MyStore", LogLevel.All⟩ [("excludeInLogs", true)]
        [("x", 1)] (Sum.inl [("x", 2)])).logs = [] :=
  (logging_iff_not_excluded_and_level ([] : List (CEntry Int))
      ([] : List (String × Reaction Int Unit)) ⟨"MyStore", LogLevel.All⟩
      [("excludeInLogs", true)] [("x", 1)] (Sum.inl [("x", 2)])).1 (by decide)

/-! ## Claim C1 -/

/-- C1 is false on the code: in the store `{x: 1, a: 2, b: 20}` with
computed `a` (extracted deps `["x"]`) and computed `b` (extracted deps
`["a"]`), the write `{x: 5}` recomputes `a` to `6` — so `b`'s declared
dependency `a` changes in the committed state — yet `b` keeps its stale
value `20`, while its derivation applied to the post-change values gives
`60`.  The recompute trigger consults only the keys of the explicit
changes, so a dependency changed via same-cycle recomputation does not
trigger recomputation. -/
theorem stale_computed_after_computed_dep_change :
    aE.deps = ["x"] ∧ bE.deps = ["a"]
      ∧ getProp resAB.committed "a" = some 6
      ∧ getProp curAB "a" = some 2
      ∧ getProp resAB.committed "b" = some 20
      ∧ bE.derive resAB.committed = 60 := by
  exact ⟨by decide, by decide, by decide, by decide, by decide, by decide⟩

/-- C1 (amended): consistency holds exactly for entries triggered through
the explicit changes: if some extracted dependency of a registered entry
is among the keys of the explicit change object, then after the commit
the entry's value equals its derivation applied to the merge of the
pre-write state, the explicit changes, and the values recomputed earlier
in the same pass (which are the post-change values unless a dependency
of the entry is recomputed later in the pass).  Entries whose
dependencies change only through same-cycle recomputation are not
recomputed and may keep a stale value. -/
theorem computed_consistency_explicit_trigger
    (pre : List (CEntry V)) (e : CEntry V) (post : List (CEntry V))
    (ws : List (String × Reaction V E)) (st : Settings) (opts : WriteOpts)
    (cur : StateMap V) (arg : WriteArg V) (chg : StateMap V)
    (hchg : resolveArg arg cur = chg)
    (hnd : ((pre ++ e :: post).map CEntry.name).Nodup)
    (htrig : intersection (jsKeys chg) e.deps ≠ []) :
    getProp (setMiddleware (pre ++ e :: post) ws st opts cur arg).committed e.name
      = some (e.derive (jsMerge (jsMerge cur chg) (recomputePass pre cur chg))) := by
  subst hchg
  have hlen : 0 < (intersection (jsKeys (resolveArg arg cur)) e.deps).length :=
    List.length_pos.mpr htrig
  have hval := getProp_recomputePass_split pre e post cur (resolveArg arg cur) hnd hlen
  rw [setMiddleware_committed, getProp_jsMerge, getProp_jsMerge, hval]

/-- Witness for the amended C1: the triggered entry `a` is consistent
after the concrete write `{x: 5}`. -/
theorem computed_consistency_explicit_trigger_wit :
    getProp (setMiddleware ([] ++ aE :: [bE]) ([] : List (String × Reaction Int Unit))
        ⟨"MyStore", LogLevel.None⟩ [] curAB (Sum.inl [("x", 5)])).committed aE.name
      = some (aE.derive (jsMerge (jsMerge curAB [("x", 5)])
          (recomputePass [] curAB [("x", 5)]))) :=
  computed_consistency_explicit_trigger [] aE [bE]
    ([] : List (String × Reaction Int Unit)) ⟨"MyStore", LogLevel.None⟩ []
    curAB (Sum.inl [("x", 5)]) [("x", 5)] rfl (by decide) (by decide)

/-! ## Claim C2 -/

/-- C2: a watcher registered on key `K` fires exactly once per write in
which `K` occurs in the committed change set (the explicit changes merged
with the recomputed values) — with arguments equal to the post-commit
and pre-commit values of `K`, and with no value-equality filtering (no
hypothesis compares old and new values) — and does not fire when `K` is
absent from the committed change set.  Reactions are assumed
non-raising; a raising reaction aborts the remainder of the dispatch
(see the error-handling claim). -/
theorem watcher_fires_exactly_once_iff_key_committed
    (reg : List (CEntry V)) (ws : List (String × Reaction V E))
    (st : Settings) (opts : WriteOpts) (cur : StateMap V) (arg : WriteArg V)
    (chg : StateMap V) (K : String) (f : Reaction V E)
    (hchg : resolveArg arg cur = chg)
    (hnd : (ws.map Prod.fst).Nodup)
    (hpure : ∀ p ∈ ws, ∀ v o, p.2 v o = none)
    (hmem : (K, f) ∈ ws) :
    (hasKey (jsMerge chg (recomputePass reg cur chg)) K = true →
        (setMiddleware reg ws st opts cur arg).invocations.filter (fun i => i.1 == K)
            = [(K, getProp (jsMerge chg (recomputePass reg cur chg)) K, getProp cur K)]
          ∧ getProp (setMiddleware reg ws st opts cur arg).committed K
            = getProp (jsMerge chg (recomputePass reg cur chg)) K)
      ∧ (hasKey (jsMerge chg (recomputePass reg cur chg)) K = false →
          (setMiddleware reg ws st opts cur arg).invocations.filter (fun i => i.1 == K)
            = []) := by
  subst hchg
  have hp := dispatchGo_pure (logOps st opts)
    (jsMerge (resolveArg arg cur) (recomputePass reg cur (resolveArg arg cur))) cur ws hpure
  have hfil := triggeredInvs_filter_mem ws
    (jsMerge (resolveArg arg cur) (recomputePass reg cur (resolveArg arg cur))) cur K hnd
    (List.mem_map_of_mem Prod.fst hmem)
  constructor
  · intro hk
    constructor
    · rw [setMiddleware_invocations, hp.1, hfil, hasKey] at *
      rw [hk, cond_true]
    · rw [setMiddleware_committed, getProp_jsMerge]
      have hs : (getProp (jsMerge (resolveArg arg cur)
          (recomputePass reg cur (resolveArg arg cur))) K).isSome := by
        rw [← hasKey_eq_isSome]
        exact hk
      cases hg : getProp (jsMerge (resolveArg arg cur)
          (recomputePass reg cur (resolveArg arg cur))) K
      · rw [hg] at hs
        exact Bool.noConfusion hs
      · rfl
  · intro hk
    rw [setMiddleware_invocations, hp.1, hfil, hasKey] at *
    rw [hk, cond_false]

/-- Witness for C2: the watcher on `count` fires exactly once for the
concrete write `{count: 1}` over `{count: 0}`, with new value `1` and
old value `0`. -/
theorem watcher_fires_exactly_once_iff_key_committed_wit :
    (setMiddleware ([] : List (CEntry Int))
          [("count", (fun _ _ => none : Reaction Int Unit))]
          ⟨"MyStore", LogLevel.None⟩ [] [("count", 0)]
          (Sum.inl [("count", 1)])).invocations.filter (fun i => i.1 == "count")
        = [("count",
            getProp (jsMerge [("count", 1)]
              (recomputePass [] [("count", 0)] [("count", 1)])) "count",
            getProp [("count", (0 : Int))] "count")]
      ∧ getProp (setMiddleware ([] : List (CEntry Int))
          [("count", (fun _ _ => none : Reaction Int Unit))]
          ⟨"MyStore", LogLevel.None⟩ [] [("count", 0)]
          (Sum.inl [("count", 1)])).committed "count"
        = getProp (jsMerge [("count", 1)]
            (recomputePass [] [("count", 0)] [("count", 1)])) "count" :=
  (watcher_fires_exactly_once_iff_key_committed ([] : List (CEntry Int))
      [("count", (fun _ _ => none : Reaction Int Unit))]
      ⟨"MyStore", LogLevel.None⟩ [] [("count", 0)] (Sum.inl [("count", 1)])
      [("count", 1)] "count" (fun _ _ => none) rfl (by decide)
      (by
        intro p hp v o
        rcases List.mem_singleton.mp hp with rfl
        rfl)
      (List.mem_singleton.mpr rfl)).1 (by decide)

/-! ## Claim C6 -/

/-- C6: when a watcher reaction raises, the exception escapes the write
call, the dispatch pass stops — the performed invocations are exactly
the triggered watchers up to and including the raising one, so watchers
later in registry order are not invoked — and the state committed before
dispatch stays committed (no rollback). -/
theorem watcher_exception_aborts_dispatch_state_kept
    (reg : List (CEntry V)) (wpre wpost : List (String × Reaction V E))
    (K : String) (f : Reaction V E) (exVal : E)
    (st : Settings) (opts : WriteOpts) (cur : StateMap V) (arg : WriteArg V)
    (chg ns : StateMap V)
    (hchg : resolveArg arg cur = chg)
    (hns : ns = jsMerge chg (recomputePass reg cur chg))
    (hpre : ∀ p ∈ wpre, ∀ v o, p.2 v o = none)
    (hK : (jsKeys ns).contains K = true)
    (hraise : f (getProp ns K) (getProp cur K) = some exVal) :
    (setMiddleware reg (wpre ++ (K, f) :: wpost) st opts cur arg).exc = some exVal
      ∧ (setMiddleware reg (wpre ++ (K, f) :: wpost) st opts cur arg).invocations
          = triggeredInvs wpre ns cur ++ [(K, getProp ns K, getProp cur K)]
      ∧ (setMiddleware reg (wpre ++ (K, f) :: wpost) st opts cur arg).committed
          = jsMerge cur ns := by
  subst hchg
  subst hns
  have happ := dispatchGo_append_pure (logOps st opts)
    (jsMerge (resolveArg arg cur) (recomputePass reg cur (resolveArg arg cur))) cur
    wpre ((K, f) :: wpost) hpre
  have hhead := dispatchGo_cons (logOps st opts)
    (jsMerge (resolveArg arg cur) (recomputePass reg cur (resolveArg arg cur))) cur
    K f wpost
  rw [hK, cond_true, hraise] at hhead
  refine ⟨?_, ?_, rfl⟩
  · rw [setMiddleware_exc, happ.2, hhead]
  · rw [setMiddleware_invocations, happ.1, hhead]

/-- Witness for C6: a concrete raising watcher on `x` aborts the
dispatch before the later watcher on `z`, the exception escapes, and the
merged state stays committed. -/
theorem watcher_exception_aborts_dispatch_state_kept_wit :
    (setMiddleware ([] : List (CEntry Int))
          ([] ++ ("x", (fun _ _ => some "boom" : Reaction Int String))
            :: [("z", (fun _ _ => none : Reaction Int String))])
          ⟨"MyStore", LogLevel.None⟩ [] [("x", 0), ("z", 7)]
          (Sum.inl [("x", 1)])).exc = some "boom"
      ∧ (setMiddleware ([] : List (CEntry Int))
          ([] ++ ("x", (fun _ _ => some "boom" : Reaction Int String))
            :: [("z", (fun _ _ => none : Reaction Int String))])
          ⟨"MyStore", LogLevel.None⟩ [] [("x", 0), ("z", 7)]
          (Sum.inl [("x", 1)])).invocations
        = triggeredInvs ([] : List (String × Reaction Int String))
            (jsMerge [("x", 1)] (recomputePass [] [("x", 0), ("z", 7)] [("x", 1)]))
            [("x", 0), ("z", 7)]
          ++ [("x",
              getProp (jsMerge [("x", 1)]
                (recomputePass [] [("x", 0), ("z", 7)] [("x", 1)])) "x",
              getProp [("x", (0 : Int)), ("z", 7)] "x")]
      ∧ (setMiddleware ([] : List (CEntry Int))
          ([] ++ ("x", (fun _ _ => some "boom" : Reaction Int String))
            :: [("z", (fun _ _ => none : Reaction Int String))])
          ⟨"MyStore", LogLevel.None⟩ [] [("x", 0), ("z", 7)]
          (Sum.inl [("x", 1)])).committed
        = jsMerge [("x", 0), ("z", 7)]
            (jsMerge [("x", 1)] (recomputePass [] [("x", 0), ("z", 7)] [("x", 1)])) :=
  watcher_exception_aborts_dispatch_state_kept ([] : List (CEntry Int))
    [] [("z", (fun _ _ => none : Reaction Int String))] "x"
    (fun _ _ => some "boom") "boom" ⟨"MyStore", LogLevel.None⟩ []
    [("x", 0), ("z", 7)] (Sum.inl [("x", 1)])
    [("x", 1)] (jsMerge [("x", 1)] (recomputePass [] [("x", 0), ("z", 7)] [("x", 1)]))
    rfl rfl (by intro p hp; cases hp) (by decide) rfl

/-! ## Claim C3 -/

/-- C3: (i) with a duplicate-free registry, an entry is recomputed by a
write exactly when its extracted dependency list meets the keys of the
explicit changes; (ii) recomputation runs in registration order, each
derivation evaluated against the merge of the pre-write state, the
explicit changes, and the values recomputed earlier in the same pass;
(iii) an entry whose extracted dependency list is empty is evaluated
once at registration — against the prior state merged with the values
staged earlier in the same registration pass — and is never registered,
hence never recomputed by any later write. -/
theorem recompute_trigger_order_and_static_entries :
    (∀ (reg : List (CEntry V)) (e : CEntry V) (cur chg : StateMap V),
        (reg.map CEntry.name).Nodup → e ∈ reg →
        (hasKey (recomputePass reg cur chg) e.name = true ↔
          intersection (jsKeys chg) e.deps ≠ []))
      ∧ (∀ (pre : List (CEntry V)) (e : CEntry V) (post : List (CEntry V))
            (cur chg : StateMap V),
          ((pre ++ e :: post).map CEntry.name).Nodup →
          intersection (jsKeys chg) e.deps ≠ [] →
          getProp (recomputePass (pre ++ e :: post) cur chg) e.name
            = some (e.derive (jsMerge (jsMerge cur chg) (recomputePass pre cur chg))))
      ∧ (∀ (spre : List (ComputedSpec V)) (sp : ComputedSpec V)
            (spost : List (ComputedSpec V)) (apiState : StateMap V),
          ((spre ++ sp :: spost).map ComputedSpec.name).Nodup →
          getDeps sp.src = [] →
          getProp ((configComputed (spre ++ sp :: spost) apiState).2) sp.name
              = some (sp.derive (jsMerge apiState ((configComputed spre apiState).2)))
            ∧ ∀ (cur chg : StateMap V),
                hasKey (recomputePass
                    ((configComputed (spre ++ sp :: spost) apiState).1) cur chg)
                  sp.name = false) := by
  refine ⟨?_, ?_, ?_⟩
  · intro reg e cur chg hnd hmem
    rw [recomputePass, hasKey_foldl_recompute_iff]
    constructor
    · rintro (h0 | ⟨x, hx, hname, htrig⟩)
      · exact Bool.noConfusion h0
      · have hxe : x = e :=
          List.inj_on_of_nodup_map hnd hx hmem hname
        subst hxe
        exact fun hnil => by rw [hnil] at htrig; exact absurd htrig (by decide)
    · intro h
      exact Or.inr ⟨e, hmem, rfl, List.length_pos.mpr h⟩
  · intro pre e post cur chg hnd htrig
    exact getProp_recomputePass_split pre e post cur chg hnd (List.length_pos.mpr htrig)
  · intro spre sp spost apiState hnd hdeps
    refine ⟨getProp_configComputed_split spre sp spost apiState hnd, ?_⟩
    intro cur chg
    cases hk : hasKey (recomputePass
        ((configComputed (spre ++ sp :: spost) apiState).1) cur chg) sp.name
    · rfl
    · exfalso
      rw [recomputePass, hasKey_foldl_recompute_iff] at hk
      rcases hk with h0 | ⟨x, hx, hname, htrig⟩
      · exact Bool.noConfusion h0
      · rcases mem_configComputed_reg (spre ++ sp :: spost) apiState ([], []) x hx
          with hnil | ⟨sp2, hsp2, hn2, hd2⟩
        · cases hnil
        · have hsp2sp : sp2 = sp := by
            refine List.inj_on_of_nodup_map hnd hsp2
              (List.mem_append_right spre (List.mem_cons_self sp spost)) ?_
            rw [← hn2, hname]
          subst hsp2sp
          rw [hdeps] at hd2
          rw [hd2] at htrig
          simp [intersection] at htrig

/-- Witness for C3: part (ii) applied to the concrete registry
`[a, b]` and write `{x: 5}` — the triggered entry `a` is derived against
the merge of pre-state, changes and the (empty) earlier recomputations. -/
theorem recompute_trigger_order_and_static_entries_wit :
    getProp (recomputePass ([] ++ aE :: [bE]) curAB [("x", (5 : Int))]) aE.name
      = some (aE.derive (jsMerge (jsMerge curAB [("x", 5)])
          (recomputePass [] curAB [("x", 5)]))) :=
  recompute_trigger_order_and_static_entries.2.1 [] aE [bE] curAB [("x", 5)]
    (by decide) (by decide)

/-! ## Claim C4 -/

/-- C4: with middleware `[M1, M2]`, lodash `flow` composes the creator
chain left to right, which makes the first listed stage the outermost
wrapper of the write function: a write issued through the set captured
by the state initializer is observed by stage 1, then stage 2, then
reaches the core pipeline — i.e. the composed write function is
`M1(M2(core))`. -/
theorem middleware_first_listed_outermost
    (reg : List (CEntry V)) (ws : List (String × Reaction V E))
    (st : Settings) (opts : WriteOpts)
    (tr : List WEvent) (s : StateMap V) (chg : StateMap V) :
    initializerSet reg ws st opts (some [mkStage 1, mkStage 2]) (tr, s) chg
      = (tr ++ [WEvent.stage 1, WEvent.stage 2, WEvent.core],
         (setMiddleware reg ws st opts s (Sum.inl chg)).committed) := by
  show (lodashFlow ([1, 2].map mkStage) baseCreator)
      (coreWrite reg ws st opts) (tr, s) chg = _
  rw [lodashFlow_mkStage]
  show ([1, 2].foldr obsWrap (coreWrite reg ws st opts)) (tr, s) chg = _
  rw [foldr_obsWrap_apply]
  show (tr ++ [WEvent.stage 1, WEvent.stage 2] ++ [WEvent.core],
      (setMiddleware reg ws st opts s (Sum.inl chg)).committed) = _
  rw [List.append_assoc]
  rfl

/-! ## Claim C7 -/

/-- C7 is false on the code: with middleware `[M1, M2]` installed, a
write through the facade's `setState` (equally through the `set` handed
to watcher reactions) reaches the core pipeline without being observed
by any middleware stage — `setState` closes over the store's native set,
not the stage-wrapped set — while the same write through the
initializer's set is observed by both stages. -/
theorem facade_write_bypasses_middleware_cex :
    (initializerSet ([] : List (CEntry Int)) ([] : List (String × Reaction Int Unit))
          ⟨"MyStore", LogLevel.None⟩ [] (some [mkStage 1, mkStage 2])
          ([], [("x", 1)]) [("x", 2)]).1
        = [WEvent.stage 1, WEvent.stage 2, WEvent.core]
      ∧ (facadeSetState ([] : List (CEntry Int)) ([] : List (String × Reaction Int Unit))
          ⟨"MyStore", LogLevel.None⟩ [] ([], [("x", 1)]) [("x", 2)]).1
        = [WEvent.core]
      ∧ WEvent.stage 1 ∉ [WEvent.core] := by
  exact ⟨rfl, rfl, by decide⟩

/-- C7 (amended): every write path — the facade's `setState`, the `set`
handed to watcher reactions, and the set captured by the state
initializer — routes through the full `setMiddleware` pipeline (computed
recomputation, single commit, watcher dispatch); but only the
initializer's set additionally traverses the composed middleware stages
(first listed outermost); facade and watcher-reaction writes reach
`setMiddleware` over the captured native set, bypassing the stages. -/
theorem all_write_paths_route_through_core
    (reg : List (CEntry V)) (ws : List (String × Reaction V E))
    (st : Settings) (opts : WriteOpts) (tags : List Nat)
    (tr : List WEvent) (s : StateMap V) (chg : StateMap V) :
    facadeSetState reg ws st opts (tr, s) chg
        = (tr ++ [WEvent.core], (setMiddleware reg ws st opts s (Sum.inl chg)).committed)
      ∧ watcherSet reg ws st opts = facadeSetState reg ws st opts
      ∧ initializerSet reg ws st opts (some (tags.map mkStage)) (tr, s) chg
        = (tr ++ tags.map WEvent.stage ++ [WEvent.core],
           (setMiddleware reg ws st opts s (Sum.inl chg)).committed) := by
  refine ⟨rfl, rfl, ?_⟩
  show (lodashFlow (tags.map mkStage) baseCreator)
      (coreWrite reg ws st opts) (tr, s) chg = _
  rw [lodashFlow_mkStage]
  show (tags.foldr obsWrap (coreWrite reg ws st opts)) (tr, s) chg = _
  rw [foldr_obsWrap_apply]
  show (tr ++ tags.map WEvent.stage ++ [WEvent.core],
      (setMiddleware reg ws st opts s (Sum.inl chg)).committed) = _
  rfl

/-! ## Claim C9 -/

theorem zip_self_all_beq [DecidableEq V] (a : List (Option V)) :
    ((a.zip a).all (fun p => p.1 == p.2)) = true := by
  induction a with
  | nil => rfl
  | cons x rest ih => simp [List.zip_cons_cons, ih]

theorem shallowList_self [DecidableEq V] (a : List (Option V)) :
    shallowList a a = true := by
  simp [shallowList, zip_self_all_beq]

/-- C9: a comma-containing string selector is split on commas, each part
trimmed, and each name resolved independently against the state, the
results forming an ordered sequence positionally matching the requested
names; and the batch result is change-filtered by zustand `shallow`, so
two states agreeing on all requested names yield a shallow-equal
result. -/
theorem batch_read_split_trim_positional_shallow [DecidableEq V]
    (sel : String) (s s2 : StateMap V) (hc : sel.toList.contains ',' = true) :
    stateHookString sel s
        = ReadResult.batch ((selParts sel).map (fun p => getProp s p))
      ∧ ((∀ p ∈ selParts sel, getProp s p = getProp s2 p) →
          shallowList
              ((selParts sel).map (fun p => getProp s p))
              ((selParts sel).map (fun p => getProp s2 p))
            = true) := by
  constructor
  · rw [stateHookString, if_pos hc]
  · intro h
    have heq : (selParts sel).map (fun p => getProp s p)
        = (selParts sel).map (fun p => getProp s2 p) :=
      List.map_congr_left h
    rw [heq]
    exact shallowList_self _

/-- Witness for C9: the concrete batch read `store("a, b")` over
`{a: 1, b: 2}` returns `[state.a, state.b] = [1, 2]`. -/
theorem batch_read_split_trim_positional_shallow_wit :
    stateHookString "a, b" [("a", (1 : Int)), ("b", 2)]
      = ReadResult.batch [some 1, some 2] := by
  have h := (batch_read_split_trim_positional_shallow "a, b"
    [("a", (1 : Int)), ("b", 2)] [] (by decide)).1
  rw [h]
  decide

/-! ## Claim C5 — amended theorem

The `new Set` in `getDeps` deduplicates match objects.  Distinct regex
matches are always distinct objects, which the model renders as pairs
(start index, capture) that are provably pairwise distinct: within one
scan the start indices strictly increase, and a position cannot start
both a `this.` match and a `this['` match (the character at offset 4
would have to be both `.` and `[`).  Hence the `new Set` removes
nothing and `getDeps` is the plain concatenation of the two match
lists' captures. -/

theorem scanDotF_mem (fuel : Nat) :
    ∀ (l : List Char) (i : Nat) (p : Nat × String), p ∈ scanDotF fuel l i →
      i ≤ p.1 ∧ (l.drop (p.1 - i)).take 5 = dotPat := by
  induction fuel with
  | zero =>
    intro l i p hp
    cases hp
  | succ fuel ih =>
    intro l i p hp
    cases l with
    | nil => cases hp
    | cons c rest =>
      rw [scanDotF] at hp
      by_cases hm : matchDotAt (c :: rest)
      · rw [if_pos hm] at hp
        rw [matchDotAt, Bool.and_eq_true] at hm
        rcases List.mem_cons.mp hp with rfl | htail
        · refine ⟨le_refl i, ?_⟩
          simp only [Nat.sub_self, List.drop_zero]
          exact eq_of_beq hm.1
        · have h2 := ih ((c :: rest).drop
              (5 + (((c :: rest).drop 5).takeWhile isWordChar).length))
            (i + 5 + (((c :: rest).drop 5).takeWhile isWordChar).length) p htail
          refine ⟨by omega, ?_⟩
          have hdd : (((c :: rest).drop
                (5 + (((c :: rest).drop 5).takeWhile isWordChar).length)).drop
                  (p.1 - (i + 5 + (((c :: rest).drop 5).takeWhile isWordChar).length)))
              = (c :: rest).drop (p.1 - i) := by
            rw [List.drop_drop]
            congr 1
            omega
          rw [hdd] at h2
          exact h2.2
      · rw [if_neg hm] at hp
        have h2 := ih rest (i + 1) p hp
        refine ⟨by omega, ?_⟩
        have hdd : rest.drop (p.1 - (i + 1)) = (c :: rest).drop (p.1 - i) := by
          have hh : p.1 - i = (p.1 - (i + 1)) + 1 := by omega
          rw [hh, List.drop_succ_cons]
        rw [hdd] at h2
        exact h2.2

theorem scanBrF_mem (fuel : Nat) :
    ∀ (l : List Char) (i : Nat) (p : Nat × String), p ∈ scanBrF fuel l i →
      i ≤ p.1 ∧ (l.drop (p.1 - i)).take 6 = brPat := by
  induction fuel with
  | zero =>
    intro l i p hp
    cases hp
  | succ fuel ih =>
    intro l i p hp
    cases l with
    | nil => cases hp
    | cons c rest =>
      rw [scanBrF] at hp
      by_cases hm : matchBrAt (c :: rest)
      · rw [if_pos hm] at hp
        rw [matchBrAt, Bool.and_eq_true] at hm
        rcases List.mem_cons.mp hp with rfl | htail
        · refine ⟨le_refl i, ?_⟩
          simp only [Nat.sub_self, List.drop_zero]
          exact eq_of_beq hm.1
        · have h2 := ih ((c :: rest).drop
              (6 + (((c :: rest).drop 6).takeWhile isWordChar).length + 2))
            (i + 6 + (((c :: rest).drop 6).takeWhile isWordChar).length + 2) p htail
          refine ⟨by omega, ?_⟩
          have hdd : (((c :: rest).drop
                (6 + (((c :: rest).drop 6).takeWhile isWordChar).length + 2)).drop
                  (p.1 - (i + 6 + (((c :: rest).drop 6).takeWhile isWordChar).length + 2)))
              = (c :: rest).drop (p.1 - i) := by
            rw [List.drop_drop]
            congr 1
            omega
          rw [hdd] at h2
          exact h2.2
      · rw [if_neg hm] at hp
        have h2 := ih rest (i + 1) p hp
        refine ⟨by omega, ?_⟩
        have hdd : rest.drop (p.1 - (i + 1)) = (c :: rest).drop (p.1 - i) := by
          have hh : p.1 - i = (p.1 - (i + 1)) + 1 := by omega
          rw [hh, List.drop_succ_cons]
        rw [hdd] at h2
        exact h2.2

theorem scanDotF_pairwise (fuel : Nat) :
    ∀ (l : List Char) (i : Nat),
      (scanDotF fuel l i).Pairwise (fun p q => p.1 < q.1) := by
  induction fuel with
  | zero =>
    intro l i
    exact List.Pairwise.nil
  | succ fuel ih =>
    intro l i
    cases l with
    | nil => exact List.Pairwise.nil
    | cons c rest =>
      rw [scanDotF]
      by_cases hm : matchDotAt (c :: rest)
      · rw [if_pos hm]
        refine List.Pairwise.cons ?_ (ih _ _)
        intro q hq
        have h2 := scanDotF_mem fuel _ _ q hq
        have : i + 5 + (((c :: rest).drop 5).takeWhile isWordChar).length ≤ q.1 := h2.1
        omega
      · rw [if_neg hm]
        exact ih _ _

theorem scanBrF_pairwise (fuel : Nat) :
    ∀ (l : List Char) (i : Nat),
      (scanBrF fuel l i).Pairwise (fun p q => p.1 < q.1) := by
  induction fuel with
  | zero =>
    intro l i
    exact List.Pairwise.nil
  | succ fuel ih =>
    intro l i
    cases l with
    | nil => exact List.Pairwise.nil
    | cons c rest =>
      rw [scanBrF]
      by_cases hm : matchBrAt (c :: rest)
      · rw [if_pos hm]
        refine List.Pairwise.cons ?_ (ih _ _)
        intro q hq
        have h2 := scanBrF_mem fuel _ _ q hq
        have : i + 6 + (((c :: rest).drop 6).takeWhile isWordChar).length + 2 ≤ q.1 := h2.1
        omega
      · rw [if_neg hm]
        exact ih _ _

theorem nodup_of_pairwise_fst_lt (l : List (Nat × String))
    (h : l.Pairwise (fun p q => p.1 < q.1)) : l.Nodup :=
  h.imp (fun hlt heq => absurd (heq ▸ hlt) (lt_irrefl _))

theorem scanDot_scanBr_disjoint (src : String) (p : Nat × String)
    (h1 : p ∈ scanDot src) (h2 : p ∈ scanBr src) : False := by
  have m1 := scanDotF_mem src.toList.length src.toList 0 p h1
  have m2 := scanBrF_mem src.toList.length src.toList 0 p h2
  have h5 : dotPat = brPat.take 5 := by
    rw [← m1.2, ← m2.2, List.take_take]
    norm_num
  exact absurd h5 (by decide)

theorem scans_nodup_append (src : String) :
    (scanDot src ++ scanBr src).Nodup := by
  rw [List.nodup_append]
  exact ⟨nodup_of_pairwise_fst_lt _ (scanDotF_pairwise _ _ _),
    nodup_of_pairwise_fst_lt _ (scanBrF_pairwise _ _ _),
    fun p hp1 hp2 => scanDot_scanBr_disjoint src p hp1 hp2⟩

/-- C5 (amended): `getDeps` returns the `this.<name>` match captures in
source order, followed by the `this['<name>']` match captures in source
order.  Repeated names are kept and the ordering is grouped by pattern
form rather than global first occurrence: the `new Set` step
deduplicates match objects, which are pairwise distinct, so it removes
nothing. -/
theorem getDeps_concatenates_pattern_matches (src : String) :
    getDeps src
      = (scanDot src).map (fun m => m.2) ++ (scanBr src).map (fun m => m.2) := by
  rw [getDeps, jsSetDedup_of_nodup _ _ (scans_nodup_append src)
    (fun a _ h => absurd h (List.not_mem_nil a)), List.map_append]

end ZustandAddons
